import Mathlib

/-!
Shallow embedding of the card-board application's core state and operations.

The state lives in the `App` component: `cards` (live collection), `history`,
and `maxZIndex`. `maxCards` comes from settings and is read per operation, so
it is a parameter of each operation here. Sources of nondeterminism in the
code (`Date.now()`, `Math.random()`, `window` size) are passed as explicit
parameters. Card text is modelled as `List Char`; coordinates as `Int`.
-/

namespace CatWords

structure Position where
  x : Int
  y : Int
deriving DecidableEq, Repr

structure Card where
  id : String
  text : List Char
  promptId : Option String
  promptName : Option String
  position : Position
  zIndex : Int
  rotation : Int
  timestamp : String
  todoStates : List (Nat × Bool)
deriving DecidableEq, Repr

structure AppState where
  cards : List Card
  history : List Card
  maxZIndex : Int
deriving DecidableEq, Repr

/-- The shared overflow block of `handlePrint` and `handleRestoreFromHistory`:
append the new card, and if the length exceeds `maxCards`, splice the excess
off the front and append it to history. -/
def insertWithEviction (maxCards : Nat) (newCard : Card) (s : AppState) : AppState :=
  let newCards := s.cards ++ [newCard]
  if maxCards < newCards.length then
    { s with
      cards := newCards.drop (newCards.length - maxCards)
      history := s.history ++ newCards.take (newCards.length - maxCards) }
  else
    { s with cards := newCards }

/-- The inputs of one `handlePrint` call that the code draws from the clock,
`Math.random()` and the window size. -/
structure PrintReq where
  id : String
  timestamp : String
  text : List Char
  promptId : Option String
  promptName : Option String
  w : Int
  h : Int
  rx : Int
  ry : Int
  rot : Int
deriving DecidableEq, Repr

/-- The card built inside `handlePrint` (`startX`/`startY` from the window
size plus random offsets, `zIndex = maxZIndex + 1`, no `todoStates`). -/
def printedCard (z : Int) (r : PrintReq) : Card :=
  { id := r.id
    text := r.text
    promptId := r.promptId
    promptName := r.promptName
    position := { x := r.w / 2 - 128 + r.rx, y := r.h - 380 + r.ry }
    zIndex := z
    rotation := r.rot
    timestamp := r.timestamp
    todoStates := [] }

/-- `handlePrint`: build the new card, append it with the overflow policy,
then increment `maxZIndex`. -/
def handlePrint (maxCards : Nat) (r : PrintReq) (s : AppState) : AppState :=
  let s1 := insertWithEviction maxCards (printedCard (s.maxZIndex + 1) r) s
  { s1 with maxZIndex := s.maxZIndex + 1 }

/-- `updateCardPosition`: replace the position of the card with matching id. -/
def updateCardPosition (id : String) (newPos : Position) (s : AppState) : AppState :=
  { s with cards := s.cards.map (fun c => if c.id = id then { c with position := newPos } else c) }

/-- `bringToFront`: `newMax = maxZIndex + 1`, set it, and give the matching
card `zIndex = newMax`. -/
def bringToFront (id : String) (s : AppState) : AppState :=
  { s with
    maxZIndex := s.maxZIndex + 1
    cards := s.cards.map (fun c => if c.id = id then { c with zIndex := s.maxZIndex + 1 } else c) }

/-- `handleRestoreFromHistory`: drop the id from history, rebuild the card
with a fresh position and `zIndex = maxZIndex + 1` (everything else,
including `rotation`, kept by the spread), re-insert with the overflow
policy, then increment `maxZIndex`. -/
def handleRestoreFromHistory (maxCards : Nat) (card : Card) (w h rx ry : Int)
    (s : AppState) : AppState :=
  let s0 := { s with history := s.history.filter (fun c => c.id != card.id) }
  let newCard := { card with
    position := { x := w / 2 - 144 + rx, y := h - 380 + ry }
    zIndex := s.maxZIndex + 1 }
  let s1 := insertWithEviction maxCards newCard s0
  { s1 with maxZIndex := s.maxZIndex + 1 }

/-- `handleRemoveCard`: delete the card permanently. -/
def handleRemoveCard (id : String) (s : AppState) : AppState :=
  { s with cards := s.cards.filter (fun c => c.id != id) }

/-! ## Drop-zone geometry (`handleCardDrag`, `handleCardDragEnd`) -/

structure Rect where
  left : Int
  right : Int
  top : Int
  bottom : Int
deriving DecidableEq, Repr

/-- The point-in-rect test of `handleCardDrag`: the card centre
(`pos + (144, 100)`) against the drop-zone rectangle expanded by 30 in every
direction. -/
def isOverDropZone (pos : Position) (r : Rect) : Bool :=
  let cardCenterX := pos.x + 144
  let cardCenterY := pos.y + 100
  decide (r.left - 30 ≤ cardCenterX) && decide (cardCenterX ≤ r.right + 30) &&
    decide (r.top - 30 ≤ cardCenterY) && decide (cardCenterY ≤ r.bottom + 30)

/-- The pointer-up event as seen by the store: `handlePointerUp` first commits
the final position (`onUpdatePosition`), then `handleCardDragEnd` runs with
the pre-event `cards` snapshot in its closure: it looks the card up there and,
if the drop flag is set, appends that snapshot card to history and filters the
id out of the live list. -/
def pointerUpCommit (id : String) (finalPos : Position) (dropFlag : Bool)
    (s : AppState) : AppState :=
  let card? := s.cards.find? (fun c => c.id == id)
  let s1 := updateCardPosition id finalPos s
  match dropFlag, card? with
  | true, some card =>
    { s1 with
      history := s1.history ++ [card]
      cards := s1.cards.filter (fun c => c.id != id) }
  | _, _ => s1

/-! ## Drag offset logic (`handlePointerDown` / `handlePointerMove`) -/

/-- `handlePointerDown` stores `dragOffset = pointer - card origin` in a ref;
no later move touches it. -/
def beginDrag (pointer cardOrigin : Position) : Position :=
  { x := pointer.x - cardOrigin.x, y := pointer.y - cardOrigin.y }

/-- `handlePointerMove` reports `pointer - dragOffset`. -/
def moveDrag (offset : Position) (pointer : Position) : Position :=
  { x := pointer.x - offset.x, y := pointer.y - offset.y }

/-- The positions a whole drag session reports: one per move event, each
computed from the unchanged offset captured at `begin` time. -/
def dragSessionReports (offset : Position) (pointers : List Position) : List Position :=
  pointers.map (moveDrag offset)

/-! ## Checklist (todo) lines -/

/-- JS `String.prototype.split("\n")` on a character list. -/
def splitLines : List Char → List (List Char)
  | [] => [[]]
  | c :: rest =>
    if c = '\n' then [] :: splitLines rest
    else
      match splitLines rest with
      | l :: ls => (c :: l) :: ls
      | [] => [[c]]

def isWS (c : Char) : Bool := c = ' ' || c = '\t' || c = '\n' || c = '\r'

/-- JS `String.prototype.trim()`. -/
def trimChars (l : List Char) : List Char :=
  ((l.dropWhile isWS).reverse.dropWhile isWS).reverse

/-- `line.trim().startsWith("□")`. -/
def isTodoLine (l : List Char) : Bool :=
  (trimChars l).head? = some '□'

/-- The `line.isTodo` flag of `getTodoLines` for the line at `idx`
(out-of-range indices are never rendered, hence never clickable). -/
def isTodoLineAt (text : List Char) (idx : Nat) : Bool :=
  match (splitLines text)[idx]? with
  | some l => isTodoLine l
  | none => false

/-- `data.text.includes("□")`. -/
def isTodoFormat (text : List Char) : Bool := text.contains '□'

/-- JS object spread `{...m, [k]: v}` on the todo-state record: overwrite the
key in place if present, else append it. -/
def setTodo (m : List (Nat × Bool)) (k : Nat) (v : Bool) : List (Nat × Bool) :=
  if m.any (fun p => p.1 == k) then m.map (fun p => if p.1 == k then (k, v) else p)
  else m ++ [(k, v)]

/-- The read path `todoStates?.[idx.toString()] || false`. -/
def getTodo (m : List (Nat × Bool)) (k : Nat) : Bool :=
  ((m.find? (fun p => p.1 == k)).map (fun p => p.2)).getD false

/-- The per-card update performed by `handleTodoStateChange` on the matching
card: `todoStates = {...card.todoStates, [lineIndex.toString()]: completed}`. -/
def applyTodoChange (c : Card) (idx : Nat) (completed : Bool) : Card :=
  { c with todoStates := setTodo c.todoStates idx completed }

/-- `handleTodoStateChange` at the state level. -/
def handleTodoStateChange (cardId : String) (idx : Nat) (completed : Bool)
    (s : AppState) : AppState :=
  { s with cards := s.cards.map (fun c => if c.id = cardId then applyTodoChange c idx completed else c) }

/-- A click on line `idx` of a rendered card: the `DraggableCard` click
handler only fires `onTodoStateChange(id, idx, !line.isCompleted)` when the
card renders in todo format and `line.isTodo` holds. -/
def todoLineClick (c : Card) (idx : Nat) : Card :=
  if isTodoFormat c.text && isTodoLineAt c.text idx then
    applyTodoChange c idx (!(getTodo c.todoStates idx))
  else c

/-! ## Typing animation (`DraggableCard` typing effect) -/

def MAX_TYPING_LENGTH : Nat := 80

/-- `typingText`: the animated target, truncated at 80 characters with an
ellipsis marker appended. -/
def typingTarget (text : List Char) : List Char :=
  if MAX_TYPING_LENGTH < text.length then text.take MAX_TYPING_LENGTH ++ ['.', '.', '.']
  else text

structure TypingState where
  typedContent : List Char
  isTyping : Bool
deriving DecidableEq, Repr

def typingInit : TypingState := { typedContent := [], isTyping := true }

/-- One run of the typing effect: while the revealed content is shorter than
the target, the scheduled tick reveals one more character; otherwise the
effect sets `isTyping` to `false` and schedules nothing. -/
def typingStep (target : List Char) (s : TypingState) : TypingState :=
  if s.typedContent.length < target.length then
    { s with typedContent := target.take (s.typedContent.length + 1) }
  else
    { s with isTyping := false }

/-- `displayContent`: the typed prefix while typing, the full stored text
once done. -/
def displayContent (text : List Char) (s : TypingState) : List Char :=
  if s.isTyping then s.typedContent else text

/-! ## Helper lemmas -/

/-- Both branches of the overflow policy are the same drop/take split, thanks
to truncated `Nat` subtraction. -/
theorem insertWithEviction_eq (maxCards : Nat) (newCard : Card) (s : AppState) :
    insertWithEviction maxCards newCard s =
      { s with
        cards := (s.cards ++ [newCard]).drop ((s.cards.length + 1) - maxCards)
        history := s.history ++ (s.cards ++ [newCard]).take ((s.cards.length + 1) - maxCards) } := by
  have hlen : (s.cards ++ [newCard]).length = s.cards.length + 1 := by simp
  simp only [insertWithEviction, hlen]
  by_cases h : maxCards < s.cards.length + 1
  · rw [if_pos h]
  · rw [if_neg h]
    have h0 : (s.cards.length + 1) - maxCards = 0 := by omega
    simp [h0]

theorem insertWithEviction_length_le (maxCards : Nat) (newCard : Card) (s : AppState) :
    (insertWithEviction maxCards newCard s).cards.length ≤ maxCards := by
  unfold insertWithEviction
  by_cases h : maxCards < (s.cards ++ [newCard]).length
  · simp only [if_pos h, List.length_drop]
    omega
  · simp only [if_neg h]
    omega

theorem handlePrint_cards_length_le (maxCards : Nat) (r : PrintReq) (s : AppState) :
    (handlePrint maxCards r s).cards.length ≤ maxCards := by
  unfold handlePrint
  exact insertWithEviction_length_le _ _ _

theorem foldl_handlePrint_length_le (maxCards : Nat) (qs : List PrintReq) (t : AppState)
    (h : t.cards.length ≤ maxCards) :
    ((qs.foldl (fun u p => handlePrint maxCards p u) t)).cards.length ≤ maxCards := by
  induction qs generalizing t with
  | nil => exact h
  | cons q qs ih =>
    simpa using ih (handlePrint maxCards q t) (handlePrint_cards_length_le maxCards q t)

/-- After dropping at most the original prefix, a list ending in `a` still
ends in `a`. -/
theorem getLast?_drop_concat {α : Type} (xs : List α) (a : α) (k : Nat)
    (h : k ≤ xs.length) : ((xs ++ [a]).drop k).getLast? = some a := by
  rw [List.drop_append_of_le_length h, List.getLast?_concat]

/-! ## C1: capacity bound and strict FIFO eviction on insert -/

/-- C1: After every `handlePrint` the live collection has at most
`maxCards` cards; when the append exceeds `maxCards` the excess is removed
from the front, in insertion order, and appended to history, leaving exactly
`maxCards` live cards; otherwise live is the plain append and history is
untouched; and over any nonempty sequence of inserts the live size never
exceeds `maxCards`. -/
theorem handlePrint_capacity_fifo (maxCards : Nat) (r : PrintReq) (s : AppState) :
    (handlePrint maxCards r s).cards.length ≤ maxCards
    ∧ (maxCards < s.cards.length + 1 →
        (handlePrint maxCards r s).cards =
          (s.cards ++ [printedCard (s.maxZIndex + 1) r]).drop ((s.cards.length + 1) - maxCards)
        ∧ (handlePrint maxCards r s).history =
            s.history ++ (s.cards ++ [printedCard (s.maxZIndex + 1) r]).take ((s.cards.length + 1) - maxCards)
        ∧ (handlePrint maxCards r s).cards.length = maxCards)
    ∧ (s.cards.length + 1 ≤ maxCards →
        (handlePrint maxCards r s).cards = s.cards ++ [printedCard (s.maxZIndex + 1) r]
        ∧ (handlePrint maxCards r s).history = s.history)
    ∧ (∀ (q : PrintReq) (qs : List PrintReq),
        (((q :: qs).foldl (fun u p => handlePrint maxCards p u) s)).cards.length ≤ maxCards) := by
  refine ⟨handlePrint_cards_length_le maxCards r s, ?_, ?_, ?_⟩
  · intro hover
    unfold handlePrint
    rw [insertWithEviction_eq]
    refine ⟨rfl, rfl, ?_⟩
    simp only [List.length_drop, List.length_append, List.length_cons, List.length_nil]
    omega
  · intro hunder
    unfold handlePrint
    rw [insertWithEviction_eq]
    have h0 : (s.cards.length + 1) - maxCards = 0 := by omega
    simp [h0]
  · intro q qs
    simpa using foldl_handlePrint_length_le maxCards qs (handlePrint maxCards q s)
      (handlePrint_cards_length_le maxCards q s)

/-- Concrete fixtures for witnesses and counterexamples. -/
def emptyState : AppState := { cards := [], history := [], maxZIndex := 1 }

def reqX : PrintReq :=
  { id := "X", timestamp := "tX", text := ['x'], promptId := none, promptName := none
    w := 400, h := 800, rx := 0, ry := 0, rot := 1 }

def reqY : PrintReq :=
  { id := "Y", timestamp := "tY", text := ['y'], promptId := none, promptName := none
    w := 400, h := 800, rx := 0, ry := 0, rot := 0 }

theorem handlePrint_capacity_fifo_witness :
    (1 < emptyState.cards.length + 1 + 1
      ∧ (handlePrint 1 reqY (handlePrint 1 reqX emptyState)).cards.length ≤ 1)
    ∧ (handlePrint 1 reqY (handlePrint 1 reqX emptyState)).history =
        (handlePrint 1 reqX emptyState).history ++
          ((handlePrint 1 reqX emptyState).cards ++
            [printedCard ((handlePrint 1 reqX emptyState).maxZIndex + 1) reqY]).take
            (((handlePrint 1 reqX emptyState).cards.length + 1) - 1) := by
  refine ⟨⟨by decide, handlePrint_cards_length_le 1 reqY _⟩, ?_⟩
  exact ((handlePrint_capacity_fifo 1 reqY (handlePrint 1 reqX emptyState)).2.1 (by decide)).2.1

/-! ## C2: restore can immediately re-evict under `maxCards = 1` -/

/-- C2: With `maxCards = 1` from the empty state: printing X then Y
leaves live = [Y] and history = [X]; restoring X from history then leaves
live = [X] (re-spawned at the end with fresh position and z-index) and
history = [Y] — the restore re-inserts X, overflows the capacity, and
re-evicts Y into history. -/
theorem restore_reevicts_scenario :
    (handlePrint 1 reqY (handlePrint 1 reqX emptyState)).cards = [printedCard 3 reqY]
    ∧ (handlePrint 1 reqY (handlePrint 1 reqX emptyState)).history = [printedCard 2 reqX]
    ∧ (handleRestoreFromHistory 1 (printedCard 2 reqX) 400 800 0 0
        (handlePrint 1 reqY (handlePrint 1 reqX emptyState))).cards =
        [{ printedCard 2 reqX with position := { x := 56, y := 420 }, zIndex := 4 }]
    ∧ (handleRestoreFromHistory 1 (printedCard 2 reqX) 400 800 0 0
        (handlePrint 1 reqY (handlePrint 1 reqX emptyState))).history = [printedCard 3 reqY] := by
  decide

/-! ## C3: restore round-trip -/

/-- With at least one card of capacity, the re-inserted card always survives
eviction and sits at the end of the live list. -/
theorem restore_cards_getLast (maxCards : Nat) (c : Card) (w h rx ry : Int) (s : AppState)
    (hmax : 1 ≤ maxCards) :
    (handleRestoreFromHistory maxCards c w h rx ry s).cards.getLast? =
      some { c with
        position := { x := w / 2 - 144 + rx, y := h - 380 + ry }
        zIndex := s.maxZIndex + 1 } := by
  simp only [handleRestoreFromHistory, insertWithEviction_eq]
  exact getLast?_drop_concat _ _ _ (by omega)

def cardZ : Card :=
  { id := "Z", text := ['z'], promptId := none, promptName := none
    position := { x := 9, y := 9 }, zIndex := 7, rotation := 5, timestamp := "tZ"
    todoStates := [] }

/-- C3 counterexample: Restoring a card whose id is absent from history is
not a no-op: from the empty state (so the id is certainly not in history),
`handleRestoreFromHistory` still inserts the card into the live collection.
The inserted card also keeps the archived `rotation` (5) verbatim rather than
regenerating it as a fresh spawn would. -/
theorem restore_not_in_history_cex :
    emptyState.history = []
    ∧ handleRestoreFromHistory 1 cardZ 400 800 0 0 emptyState ≠ emptyState
    ∧ (handleRestoreFromHistory 1 cardZ 400 800 0 0 emptyState).cards.map (fun c => c.id) = ["Z"]
    ∧ (handleRestoreFromHistory 1 cardZ 400 800 0 0 emptyState).cards.map (fun c => c.rotation) = [5] := by
  decide

/-- C3 (amended): Restoring card `c` (with positive capacity and no live
card sharing its id) appends to the live collection a card with the same
`id`, `text`, `checklistState` — and also the same `rotation`, which is
preserved rather than regenerated — with regenerated `position` and
`zIndex = maxZIndex + 1`; afterwards the id is absent from history; the
tracked maximum z-index increments. (Restore always inserts, whether or not
the id was in history; a missing id only makes the history filter a no-op.) -/
theorem restore_preserves_card_fields (maxCards : Nat) (c : Card) (w h rx ry : Int)
    (s : AppState) (hmax : 1 ≤ maxCards) (hlive : ∀ x ∈ s.cards, x.id ≠ c.id) :
    (handleRestoreFromHistory maxCards c w h rx ry s).cards.getLast? =
      some { c with
        position := { x := w / 2 - 144 + rx, y := h - 380 + ry }
        zIndex := s.maxZIndex + 1 }
    ∧ (∀ x ∈ (handleRestoreFromHistory maxCards c w h rx ry s).history, x.id ≠ c.id)
    ∧ (handleRestoreFromHistory maxCards c w h rx ry s).maxZIndex = s.maxZIndex + 1 := by
  refine ⟨restore_cards_getLast maxCards c w h rx ry s hmax, ?_, ?_⟩
  · intro x hx
    simp only [handleRestoreFromHistory, insertWithEviction_eq] at hx
    rcases List.mem_append.mp hx with hfil | htake
    · have := (List.mem_filter.mp hfil).2
      simpa [bne_iff_ne] using this
    · have hk : s.cards.length + 1 - maxCards ≤ s.cards.length := by omega
      rw [List.take_append_of_le_length hk] at htake
      exact hlive x (List.take_subset _ _ htake)
  · simp only [handleRestoreFromHistory, insertWithEviction_eq]

theorem restore_preserves_card_fields_witness :
    (1 ≤ 1 ∧ ∀ x ∈ emptyState.cards, x.id ≠ cardZ.id)
    ∧ (handleRestoreFromHistory 1 cardZ 400 800 0 0 emptyState).maxZIndex =
        emptyState.maxZIndex + 1
    ∧ (handleRestoreFromHistory 1 cardZ 400 800 0 0 emptyState).cards.getLast? =
        some { cardZ with position := { x := 56, y := 420 }, zIndex := 2 } := by
  refine ⟨⟨le_refl 1, by simp [emptyState]⟩, ?_, ?_⟩
  · exact (restore_preserves_card_fields 1 cardZ 400 800 0 0 emptyState (le_refl 1)
      (by simp [emptyState])).2.2
  · have := (restore_preserves_card_fields 1 cardZ 400 800 0 0 emptyState (le_refl 1)
      (by simp [emptyState])).1
    simpa [emptyState] using this

/-! ## C4: bringToFront -/

/-- C4 counterexample: `bringToFront` on an id with no matching live card
leaves the cards untouched but still increments the tracked maximum z-index:
it is not a full no-op. -/
theorem bringToFront_not_found_cex :
    emptyState.cards = []
    ∧ (bringToFront "Z" emptyState).cards = emptyState.cards
    ∧ (bringToFront "Z" emptyState).maxZIndex ≠ emptyState.maxZIndex := by
  decide

/-- C4 (amended): `bringToFront id` assigns the matching card
`zIndex = maxZIndex + 1` and sets the tracked maximum to that value; when no
live card has the id, the live collection is unchanged and no error is
raised, but the tracked maximum still increments by 1. -/
theorem bringToFront_assigns_max (id : String) (s : AppState) :
    (bringToFront id s).maxZIndex = s.maxZIndex + 1
    ∧ (bringToFront id s).history = s.history
    ∧ (bringToFront id s).cards =
        s.cards.map (fun c => if c.id = id then { c with zIndex := s.maxZIndex + 1 } else c)
    ∧ ((∀ c ∈ s.cards, c.id ≠ id) →
        (bringToFront id s).cards = s.cards
        ∧ (bringToFront id s).maxZIndex = s.maxZIndex + 1) := by
  refine ⟨rfl, rfl, rfl, ?_⟩
  intro hnone
  refine ⟨?_, rfl⟩
  have hcong : ∀ c ∈ s.cards,
      (if c.id = id then { c with zIndex := s.maxZIndex + 1 } else c) = c := by
    intro c hc
    rw [if_neg (hnone c hc)]
  have h2 := List.map_congr_left hcong
  simpa [bringToFront] using h2

theorem bringToFront_assigns_max_witness :
    (∀ c ∈ emptyState.cards, c.id ≠ "W")
    ∧ (bringToFront "W" emptyState).cards = emptyState.cards
    ∧ (bringToFront "W" emptyState).maxZIndex = emptyState.maxZIndex + 1 := by
  refine ⟨by simp [emptyState], ?_, (bringToFront_assigns_max "W" emptyState).1⟩
  exact ((bringToFront_assigns_max "W" emptyState).2.2.2 (by simp [emptyState])).1

/-! ## C5: typing animation -/

theorem typing_take (target : List Char) :
    ∀ k, k ≤ target.length →
      (typingStep target)^[k] typingInit =
        { typedContent := target.take k, isTyping := true } := by
  intro k
  induction k with
  | zero => intro _; simp [typingInit]
  | succ k ih =>
    intro hk
    rw [Function.iterate_succ_apply', ih (by omega)]
    have hlen : (target.take k).length = k := by
      rw [List.length_take]; omega
    have hcond : (target.take k).length < target.length := by omega
    unfold typingStep
    rw [if_pos hcond, hlen]

theorem typing_done (target : List Char) :
    (typingStep target)^[target.length + 1] typingInit =
      { typedContent := target, isTyping := false } := by
  rw [Function.iterate_succ_apply', typing_take target target.length (le_refl _)]
  simp [typingStep]

theorem typing_stable (target : List Char) :
    ∀ j, (typingStep target)^[target.length + 1 + j] typingInit =
      { typedContent := target, isTyping := false } := by
  intro j
  induction j with
  | zero => exact typing_done target
  | succ j ih =>
    rw [show target.length + 1 + (j + 1) = (target.length + 1 + j) + 1 from by omega,
      Function.iterate_succ_apply', ih]
    simp [typingStep]

/-- C5: Let `N` be the length of the typing target (the text, truncated
to the first 80 characters plus an ellipsis when longer). Starting from the
initial state, each of the first `N` ticks reveals exactly one more character
(the revealed content is always a prefix of the target), the animator is
still `Typing` through tick `N`, the very next effect run — and every later
one — is the `Done` state with no further change, and once `Done` the
displayed content is the full stored text. -/
theorem typing_animation_spec (text : List Char) :
    (MAX_TYPING_LENGTH < text.length →
      typingTarget text = text.take MAX_TYPING_LENGTH ++ ['.', '.', '.'])
    ∧ (∀ k, k ≤ (typingTarget text).length →
        (typingStep (typingTarget text))^[k] typingInit =
          { typedContent := (typingTarget text).take k, isTyping := true })
    ∧ (∀ k, k < (typingTarget text).length →
        ((typingStep (typingTarget text))^[k + 1] typingInit).typedContent.length =
          ((typingStep (typingTarget text))^[k] typingInit).typedContent.length + 1)
    ∧ (∀ m, (typingTarget text).length + 1 ≤ m →
        (typingStep (typingTarget text))^[m] typingInit =
          { typedContent := typingTarget text, isTyping := false })
    ∧ displayContent text
        ((typingStep (typingTarget text))^[(typingTarget text).length + 1] typingInit) = text := by
  refine ⟨?_, typing_take (typingTarget text), ?_, ?_, ?_⟩
  · intro hlong
    unfold typingTarget
    rw [if_pos hlong]
  · intro k hk
    rw [typing_take _ k (by omega), typing_take _ (k + 1) (by omega)]
    simp only [List.length_take]
    omega
  · intro m hm
    have := typing_stable (typingTarget text) (m - ((typingTarget text).length + 1))
    rwa [show (typingTarget text).length + 1 + (m - ((typingTarget text).length + 1)) = m
      from by omega] at this
  · rw [typing_done]
    rfl

theorem typing_animation_spec_witness :
    (2 ≤ (typingTarget ['h', 'i']).length
      ∧ (typingStep (typingTarget ['h', 'i']))^[2] typingInit =
          { typedContent := ['h', 'i'], isTyping := true })
    ∧ ((typingTarget ['h', 'i']).length + 1 ≤ 3
      ∧ (typingStep (typingTarget ['h', 'i']))^[3] typingInit =
          { typedContent := ['h', 'i'], isTyping := false }) := by
  refine ⟨⟨by decide, ?_⟩, by decide, ?_⟩
  · rw [(typing_animation_spec ['h', 'i']).2.1 2 (by decide)]
    decide
  · rw [(typing_animation_spec ['h', 'i']).2.2.2.1 3 (by decide)]
    decide

/-! ## C6: drag is relative to the grab offset -/

/-- C6: After `begin` at pointer `p0` on a card whose origin is `o0`, a
move to pointer `p` reports exactly `o0 + (p - p0)`; and after any number of
intervening move events the last report still equals that value — the offset
captured at begin time never changes. -/
theorem drag_relative_to_grab (p0 o0 : Position) (moves : List Position) (p : Position) :
    moveDrag (beginDrag p0 o0) p =
      { x := o0.x + (p.x - p0.x), y := o0.y + (p.y - p0.y) }
    ∧ (dragSessionReports (beginDrag p0 o0) (moves ++ [p])).getLast? =
        some { x := o0.x + (p.x - p0.x), y := o0.y + (p.y - p0.y) } := by
  have hmain : moveDrag (beginDrag p0 o0) p =
      { x := o0.x + (p.x - p0.x), y := o0.y + (p.y - p0.y) } := by
    simp only [moveDrag, beginDrag, Position.mk.injEq]
    constructor <;> ring
  refine ⟨hmain, ?_⟩
  unfold dragSessionReports
  rw [List.map_append]
  show (_ ++ [moveDrag (beginDrag p0 o0) p]).getLast? = _
  rw [List.getLast?_concat, hmain]

/-! ## C7: drop over the archive zone archives the card -/

/-- C7: If the drag-end happens while the drop flag (computed by the
expanded point-in-rect test on the last reported drag position) is set and
the card is found live, then after the pointer-up event the card's id is gone
from the live collection, the pre-drag card is appended verbatim to history —
so the final dragged position is discarded for the archived entry — and any
later restore re-spawns it with a regenerated position, independent of the
archived `position` field. -/
theorem drop_zone_archives (s : AppState) (id : String) (finalPos dragPos : Position)
    (rc : Rect) (c : Card)
    (hzone : isOverDropZone dragPos rc = true)
    (hfind : s.cards.find? (fun x => x.id == id) = some c) :
    (pointerUpCommit id finalPos (isOverDropZone dragPos rc) s).history = s.history ++ [c]
    ∧ (∀ x ∈ (pointerUpCommit id finalPos (isOverDropZone dragPos rc) s).cards, x.id ≠ id)
    ∧ (pointerUpCommit id finalPos (isOverDropZone dragPos rc) s).history.getLast? = some c
    ∧ (∀ (maxCards : Nat) (w h rx ry : Int), 1 ≤ maxCards →
        (handleRestoreFromHistory maxCards c w h rx ry
            (pointerUpCommit id finalPos (isOverDropZone dragPos rc) s)).cards.getLast? =
          some { c with
            position := { x := w / 2 - 144 + rx, y := h - 380 + ry }
            zIndex :=
              (pointerUpCommit id finalPos (isOverDropZone dragPos rc) s).maxZIndex + 1 }) := by
  have hred : pointerUpCommit id finalPos (isOverDropZone dragPos rc) s =
      { cards := (updateCardPosition id finalPos s).cards.filter (fun x => x.id != id)
        history := s.history ++ [c]
        maxZIndex := s.maxZIndex } := by
    unfold pointerUpCommit
    rw [hzone, hfind]
    rfl
  refine ⟨by rw [hred], ?_, ?_, ?_⟩
  · intro x hx
    rw [hred] at hx
    have := (List.mem_filter.mp hx).2
    simpa [bne_iff_ne] using this
  · rw [hred]
    exact List.getLast?_concat _
  · intro maxCards w h rx ry hmc
    exact restore_cards_getLast maxCards c w h rx ry _ hmc

def cardD : Card :=
  { id := "D", text := ['d'], promptId := none, promptName := none
    position := { x := 10, y := 20 }, zIndex := 3, rotation := 0, timestamp := "tD"
    todoStates := [] }

def stateD : AppState := { cards := [cardD], history := [], maxZIndex := 3 }

def rect0 : Rect := { left := 0, right := 400, top := 0, bottom := 400 }

theorem drop_zone_archives_witness :
    (isOverDropZone { x := 0, y := 0 } rect0 = true
      ∧ stateD.cards.find? (fun x => x.id == "D") = some cardD)
    ∧ (pointerUpCommit "D" { x := 5, y := 5 } (isOverDropZone { x := 0, y := 0 } rect0)
        stateD).history = stateD.history ++ [cardD] := by
  refine ⟨⟨by decide, by decide⟩, ?_⟩
  exact (drop_zone_archives stateD "D" { x := 5, y := 5 } { x := 0, y := 0 } rect0 cardD
    (by decide) (by decide)).1

/-! ## Todo-state record lemmas -/

theorem getTodo_nil (j : Nat) : getTodo [] j = false := rfl

theorem getTodo_cons (q : Nat × Bool) (t : List (Nat × Bool)) (j : Nat) :
    getTodo (q :: t) j = if q.1 = j then q.2 else getTodo t j := by
  unfold getTodo
  by_cases h : q.1 = j
  · rw [List.find?_cons_of_pos _ (by simp [h]), if_pos h]
    rfl
  · rw [List.find?_cons_of_neg _ (by simp [h]), if_neg h]

theorem getTodo_map_overwrite_ne (t : List (Nat × Bool)) (k j : Nat) (v : Bool) (h : j ≠ k) :
    getTodo (t.map (fun p => if p.1 == k then (k, v) else p)) j = getTodo t j := by
  induction t with
  | nil => rfl
  | cons q t ih =>
    by_cases hq : q.1 = k
    · have hfq : (if q.1 == k then (k, v) else q) = (k, v) := by simp [hq]
      rw [List.map_cons, getTodo_cons, hfq, getTodo_cons,
        if_neg (show ¬((k, v).1 = j) from fun e => h e.symm),
        if_neg (show ¬(q.1 = j) from by rw [hq]; exact fun e => h e.symm)]
      exact ih
    · have hfq : (if q.1 == k then (k, v) else q) = q := by simp [hq]
      rw [List.map_cons, getTodo_cons, hfq, getTodo_cons]
      by_cases hqj : q.1 = j
      · rw [if_pos hqj, if_pos hqj]
      · rw [if_neg hqj, if_neg hqj]
        exact ih

theorem getTodo_map_overwrite_self (t : List (Nat × Bool)) (k : Nat) (v : Bool)
    (h : t.any (fun p => p.1 == k) = true) :
    getTodo (t.map (fun p => if p.1 == k then (k, v) else p)) k = v := by
  induction t with
  | nil => simp at h
  | cons q t ih =>
    by_cases hq : q.1 = k
    · have hfq : (if q.1 == k then (k, v) else q) = (k, v) := by simp [hq]
      rw [List.map_cons, getTodo_cons, hfq, if_pos rfl]
    · have hfq : (if q.1 == k then (k, v) else q) = q := by simp [hq]
      have h2 : t.any (fun p => p.1 == k) = true := by
        simp only [List.any_cons] at h
        rcases Bool.or_eq_true_iff.mp h with h1 | h1
        · exact absurd (by simpa using h1) hq
        · exact h1
      rw [List.map_cons, getTodo_cons, hfq, if_neg hq]
      exact ih h2

theorem getTodo_append_new (t : List (Nat × Bool)) (k j : Nat) (v : Bool)
    (h : t.any (fun p => p.1 == k) = false) :
    getTodo (t ++ [(k, v)]) j = if j = k then v else getTodo t j := by
  induction t with
  | nil =>
    rw [List.nil_append, getTodo_cons]
    by_cases hj : j = k
    · rw [if_pos hj.symm, if_pos hj]
    · rw [if_neg (fun e => hj e.symm), if_neg hj]
  | cons q t ih =>
    have hqk : (q.1 == k) = false := by
      simp only [List.any_cons, Bool.or_eq_false_iff] at h
      exact h.1
    have htk : t.any (fun p => p.1 == k) = false := by
      simp only [List.any_cons, Bool.or_eq_false_iff] at h
      exact h.2
    rw [List.cons_append, getTodo_cons, getTodo_cons]
    by_cases hqj : q.1 = j
    · have hjk : ¬(j = k) := by
        intro e
        rw [e] at hqj
        simp [hqj] at hqk
      rw [if_pos hqj, if_neg hjk, if_pos hqj]
    · rw [if_neg hqj, ih htk]
      by_cases hj : j = k
      · rw [if_pos hj, if_pos hj]
      · rw [if_neg hj, if_neg hj, if_neg hqj]

/-- The value-level specification of the JS spread update. -/
theorem getTodo_setTodo (m : List (Nat × Bool)) (k j : Nat) (v : Bool) :
    getTodo (setTodo m k v) j = if j = k then v else getTodo m j := by
  unfold setTodo
  cases hany : m.any (fun p => p.1 == k) with
  | true =>
    rw [if_pos rfl]
    by_cases hj : j = k
    · rw [if_pos hj, hj]
      exact getTodo_map_overwrite_self m k v hany
    · rw [if_neg hj]
      exact getTodo_map_overwrite_ne m k j v hj
  | false =>
    simp only [Bool.false_eq_true, if_false]
    exact getTodo_append_new m k j v hany

/-- Every entry of the spread update either carries the written key or was
already present. -/
theorem mem_setTodo (m : List (Nat × Bool)) (k : Nat) (v : Bool) (p : Nat × Bool)
    (h : p ∈ setTodo m k v) : p.1 = k ∨ p ∈ m := by
  unfold setTodo at h
  cases hany : m.any (fun p => p.1 == k) with
  | true =>
    rw [hany, if_pos rfl] at h
    rcases List.mem_map.mp h with ⟨q, hq, hfq⟩
    by_cases hqk : q.1 = k
    · left
      rw [← hfq]
      simp [hqk]
    · right
      have : (q.1 == k) = false := by simp [hqk]
      rw [this] at hfq
      simpa [← hfq] using hq
  | false =>
    rw [hany] at h
    simp only [Bool.false_eq_true, if_false] at h
    rcases List.mem_append.mp h with hm | hk
    · right; exact hm
    · left
      simp only [List.mem_singleton] at hk
      rw [hk]

/-! ## Checklist line geometry -/

theorem mem_of_mem_splitLines (text : List Char) :
    ∀ l ∈ splitLines text, ∀ a ∈ l, a ∈ text := by
  induction text with
  | nil =>
    intro l hl a ha
    simp only [splitLines, List.mem_singleton] at hl
    rw [hl] at ha
    simp at ha
  | cons c rest ih =>
    intro l hl a ha
    by_cases hc : c = '\n'
    · simp only [splitLines, if_pos hc] at hl
      rcases List.mem_cons.mp hl with hnil | hrest
      · rw [hnil] at ha; simp at ha
      · exact List.mem_cons_of_mem c (ih l hrest a ha)
    · simp only [splitLines, if_neg hc] at hl
      cases hsplit : splitLines rest with
      | nil =>
        rw [hsplit] at hl
        simp only [List.mem_singleton] at hl
        rw [hl] at ha
        simp only [List.mem_singleton] at ha
        rw [ha]
        exact List.mem_cons_self c rest
      | cons hd tl =>
        rw [hsplit] at hl
        rcases List.mem_cons.mp hl with hhead | htl
        · rw [hhead] at ha
          rcases List.mem_cons.mp ha with hac | hahd
          · rw [hac]; exact List.mem_cons_self c rest
          · refine List.mem_cons_of_mem c (ih hd ?_ a hahd)
            rw [hsplit]
            exact List.mem_cons_self hd tl
        · refine List.mem_cons_of_mem c (ih l ?_ a ha)
          rw [hsplit]
          exact List.mem_cons_of_mem hd htl

/-- A checklist line at a valid index forces the todo-format content sniff to
succeed. -/
theorem isTodoFormat_of_isTodoLineAt (text : List Char) (idx : Nat)
    (h : isTodoLineAt text idx = true) : isTodoFormat text = true := by
  unfold isTodoLineAt at h
  rcases hline : (splitLines text)[idx]? with _ | l
  · rw [hline] at h
    simp at h
  · rw [hline] at h
    have hl : isTodoLine l = true := h
    have hhead : (trimChars l).head? = some '□' := by
      unfold isTodoLine at hl
      exact of_decide_eq_true hl
    have h1 : '□' ∈ trimChars l := by
      rcases htc : trimChars l with _ | ⟨a, t⟩
      · rw [htc] at hhead
        simp at hhead
      · rw [htc] at hhead
        simp only [List.head?_cons, Option.some.injEq] at hhead
        rw [hhead]
        exact List.mem_cons_self '□' t
    have h2 : '□' ∈ l := by
      unfold trimChars at h1
      rw [List.mem_reverse] at h1
      have h3 : '□' ∈ (l.dropWhile isWS).reverse :=
        (List.dropWhile_sublist _).mem h1
      rw [List.mem_reverse] at h3
      exact (List.dropWhile_sublist _).mem h3
    have h4 : l ∈ splitLines text := by
      rcases List.getElem?_eq_some_iff.mp hline with ⟨hidx, hget⟩
      rw [← hget]
      exact List.getElem_mem hidx
    have h5 : '□' ∈ text := mem_of_mem_splitLines text l h4 '□' h2
    unfold isTodoFormat
    simpa using h5

/-! ## C8: toggles only create entries for checklist lines -/

/-- A card's todo-state keys all point at checklist lines of its text. -/
def TodoKeysValid (c : Card) : Prop :=
  ∀ p ∈ c.todoStates, isTodoLineAt c.text p.1 = true

/-- C8: A checklist click on a line that is not a checklist line is a
no-op (in particular it creates no `checklistState` entry); a click never
changes the text; and the invariant that every `checklistState` key is the
index of a checklist line is preserved by every click. -/
theorem todo_toggle_guard (c : Card) (idx : Nat) :
    (isTodoLineAt c.text idx = false → todoLineClick c idx = c)
    ∧ (todoLineClick c idx).text = c.text
    ∧ (TodoKeysValid c → TodoKeysValid (todoLineClick c idx)) := by
  refine ⟨?_, ?_, ?_⟩
  · intro h
    simp [todoLineClick, h]
  · unfold todoLineClick
    split
    · rfl
    · rfl
  · intro hv
    unfold todoLineClick
    split
    · rename_i hguard
      have hline : isTodoLineAt c.text idx = true := by
        simp only [Bool.and_eq_true] at hguard
        exact hguard.2
      intro p hp
      have hp2 : p ∈ setTodo c.todoStates idx (!(getTodo c.todoStates idx)) := hp
      rcases mem_setTodo _ _ _ p hp2 with hk | hmem
      · rw [hk]
        exact hline
      · exact hv p hmem
    · exact hv

def cardT : Card :=
  { id := "T", text := ['□', ' ', 'a', '\n', 'b'], promptId := none, promptName := none
    position := { x := 0, y := 0 }, zIndex := 1, rotation := 0, timestamp := "tT"
    todoStates := [] }

theorem todo_toggle_guard_witness :
    (isTodoLineAt cardT.text 1 = false ∧ todoLineClick cardT 1 = cardT)
    ∧ (todoLineClick cardT 1).text = cardT.text := by
  refine ⟨⟨by decide, (todo_toggle_guard cardT 1).1 (by decide)⟩, ?_⟩
  exact (todo_toggle_guard cardT 1).2.1

/-! ## C9: true-then-false toggle round-trip -/

/-- C9: For a card whose line `idx` is a checklist line currently reading
unchecked, the click toggles it to checked, and a second click toggles it
back: afterwards every line's observable `checklistState` value equals the
original one, and the text is untouched — the round-trip is the identity on
the checklist-state mapping. -/
theorem todo_toggle_roundtrip (c : Card) (idx : Nat)
    (hline : isTodoLineAt c.text idx = true)
    (h0 : getTodo c.todoStates idx = false) :
    getTodo (todoLineClick c idx).todoStates idx = true
    ∧ (∀ j, getTodo (todoLineClick (todoLineClick c idx) idx).todoStates j =
        getTodo c.todoStates j)
    ∧ (todoLineClick (todoLineClick c idx) idx).text = c.text := by
  have hfmt := isTodoFormat_of_isTodoLineAt c.text idx hline
  have hguard : (isTodoFormat c.text && isTodoLineAt c.text idx) = true := by
    rw [hfmt, hline]
    rfl
  have e1 : todoLineClick c idx = applyTodoChange c idx true := by
    unfold todoLineClick
    rw [if_pos hguard, h0]
    rfl
  have hget1 : getTodo (applyTodoChange c idx true).todoStates idx = true := by
    show getTodo (setTodo c.todoStates idx true) idx = true
    rw [getTodo_setTodo]
    simp
  have e2 : todoLineClick (applyTodoChange c idx true) idx =
      applyTodoChange (applyTodoChange c idx true) idx false := by
    unfold todoLineClick
    rw [show (applyTodoChange c idx true).text = c.text from rfl, if_pos hguard, hget1]
    rfl
  refine ⟨?_, ?_, ?_⟩
  · rw [e1]
    exact hget1
  · intro j
    rw [e1, e2]
    show getTodo (setTodo (setTodo c.todoStates idx true) idx false) j =
      getTodo c.todoStates j
    rw [getTodo_setTodo, getTodo_setTodo]
    by_cases hj : j = idx
    · rw [if_pos hj, hj, h0]
    · rw [if_neg hj, if_neg hj]
  · rw [e1, e2]
    rfl

def cardT2 : Card :=
  { id := "T2", text := ['□', ' ', 'a'], promptId := none, promptName := none
    position := { x := 0, y := 0 }, zIndex := 1, rotation := 0, timestamp := "tU"
    todoStates := [] }

theorem todo_toggle_roundtrip_witness :
    (isTodoLineAt cardT2.text 0 = true ∧ getTodo cardT2.todoStates 0 = false)
    ∧ getTodo (todoLineClick cardT2 0).todoStates 0 = true
    ∧ getTodo (todoLineClick (todoLineClick cardT2 0) 0).todoStates 0 =
        getTodo cardT2.todoStates 0 := by
  refine ⟨⟨by decide, by decide⟩, ?_, ?_⟩
  · exact (todo_toggle_roundtrip cardT2 0 (by decide) (by decide)).1
  · exact (todo_toggle_roundtrip cardT2 0 (by decide) (by decide)).2.1 0

/-! ## C10: frame conditions of updateCardPosition and bringToFront -/

/-- `handlePrint` decides eviction from the live id sequence and history
only: two states agreeing on those agree on them after a print. -/
theorem handlePrint_ids_congr (maxCards : Nat) (r : PrintReq) (t u : AppState)
    (hc : t.cards.map (fun c => c.id) = u.cards.map (fun c => c.id))
    (hh : t.history.map (fun c => c.id) = u.history.map (fun c => c.id)) :
    (handlePrint maxCards r t).cards.map (fun c => c.id) =
      (handlePrint maxCards r u).cards.map (fun c => c.id)
    ∧ (handlePrint maxCards r t).history.map (fun c => c.id) =
      (handlePrint maxCards r u).history.map (fun c => c.id) := by
  have hlen : t.cards.length = u.cards.length := by
    have := congrArg List.length hc
    simpa using this
  have hids : ∀ z w : Int,
      (t.cards ++ [printedCard z r]).map (fun c => c.id) =
        (u.cards ++ [printedCard w r]).map (fun c => c.id) := by
    intro z w
    rw [List.map_append, List.map_append, hc]
    rfl
  unfold handlePrint
  rw [insertWithEviction_eq, insertWithEviction_eq]
  constructor
  · show ((t.cards ++ [printedCard (t.maxZIndex + 1) r]).drop
        ((t.cards.length + 1) - maxCards)).map (fun c => c.id) =
      ((u.cards ++ [printedCard (u.maxZIndex + 1) r]).drop
        ((u.cards.length + 1) - maxCards)).map (fun c => c.id)
    rw [List.map_drop, List.map_drop, hids (t.maxZIndex + 1) (u.maxZIndex + 1), hlen]
  · show (t.history ++ (t.cards ++ [printedCard (t.maxZIndex + 1) r]).take
        ((t.cards.length + 1) - maxCards)).map (fun c => c.id) =
      (u.history ++ (u.cards ++ [printedCard (u.maxZIndex + 1) r]).take
        ((u.cards.length + 1) - maxCards)).map (fun c => c.id)
    rw [List.map_append, List.map_append, hh, List.map_take, List.map_take,
      hids (t.maxZIndex + 1) (u.maxZIndex + 1), hlen]

/-- C10: `updateCardPosition` touches only the matching card's
`position` (all other fields and cards verbatim, order kept) and leaves
history and the tracked maximum alone; `bringToFront` keeps the id sequence
and every position; and after either operation a subsequent insert evicts
exactly the same ids into history as it would have without it. -/
theorem position_zindex_frame (id : String) (pos : Position) (s : AppState) :
    (updateCardPosition id pos s).history = s.history
    ∧ (updateCardPosition id pos s).maxZIndex = s.maxZIndex
    ∧ (updateCardPosition id pos s).cards =
        s.cards.map (fun c => if c.id = id then { c with position := pos } else c)
    ∧ (updateCardPosition id pos s).cards.map (fun c => c.id) =
        s.cards.map (fun c => c.id)
    ∧ (∀ c ∈ s.cards, c.id ≠ id → c ∈ (updateCardPosition id pos s).cards)
    ∧ (bringToFront id s).history = s.history
    ∧ (bringToFront id s).cards.map (fun c => c.id) = s.cards.map (fun c => c.id)
    ∧ (bringToFront id s).cards.map (fun c => c.position) =
        s.cards.map (fun c => c.position)
    ∧ (∀ c ∈ s.cards, c.id ≠ id → c ∈ (bringToFront id s).cards)
    ∧ (∀ (maxCards : Nat) (r : PrintReq),
        (handlePrint maxCards r (updateCardPosition id pos s)).cards.map (fun c => c.id) =
          (handlePrint maxCards r s).cards.map (fun c => c.id)
        ∧ (handlePrint maxCards r (updateCardPosition id pos s)).history.map (fun c => c.id) =
            (handlePrint maxCards r s).history.map (fun c => c.id)
        ∧ (handlePrint maxCards r (bringToFront id s)).cards.map (fun c => c.id) =
            (handlePrint maxCards r s).cards.map (fun c => c.id)
        ∧ (handlePrint maxCards r (bringToFront id s)).history.map (fun c => c.id) =
            (handlePrint maxCards r s).history.map (fun c => c.id)) := by
  have hupd_ids : (updateCardPosition id pos s).cards.map (fun c => c.id) =
      s.cards.map (fun c => c.id) := by
    show ((s.cards.map (fun c => if c.id = id then { c with position := pos } else c)).map
      (fun c => c.id)) = s.cards.map (fun c => c.id)
    rw [List.map_map]
    refine List.map_congr_left ?_
    intro c _
    by_cases h : c.id = id <;> simp [h]
  have hbtf_ids : (bringToFront id s).cards.map (fun c => c.id) =
      s.cards.map (fun c => c.id) := by
    show ((s.cards.map (fun c => if c.id = id then { c with zIndex := s.maxZIndex + 1 } else c)).map
      (fun c => c.id)) = s.cards.map (fun c => c.id)
    rw [List.map_map]
    refine List.map_congr_left ?_
    intro c _
    by_cases h : c.id = id <;> simp [h]
  have hbtf_pos : (bringToFront id s).cards.map (fun c => c.position) =
      s.cards.map (fun c => c.position) := by
    show ((s.cards.map (fun c => if c.id = id then { c with zIndex := s.maxZIndex + 1 } else c)).map
      (fun c => c.position)) = s.cards.map (fun c => c.position)
    rw [List.map_map]
    refine List.map_congr_left ?_
    intro c _
    by_cases h : c.id = id <;> simp [h]
  refine ⟨rfl, rfl, rfl, hupd_ids, ?_, rfl, hbtf_ids, hbtf_pos, ?_, ?_⟩
  · intro c hc hne
    have : (if c.id = id then { c with position := pos } else c) ∈
        (updateCardPosition id pos s).cards := List.mem_map_of_mem _ hc
    rwa [if_neg hne] at this
  · intro c hc hne
    have : (if c.id = id then { c with zIndex := s.maxZIndex + 1 } else c) ∈
        (bringToFront id s).cards := List.mem_map_of_mem _ hc
    rwa [if_neg hne] at this
  · intro maxCards r
    have h1 := handlePrint_ids_congr maxCards r (updateCardPosition id pos s) s hupd_ids rfl
    have h2 := handlePrint_ids_congr maxCards r (bringToFront id s) s hbtf_ids rfl
    exact ⟨h1.1, h1.2, h2.1, h2.2⟩

theorem position_zindex_frame_witness :
    (cardD ∈ stateD.cards ∧ cardD.id ≠ "Q")
    ∧ cardD ∈ (updateCardPosition "Q" { x := 1, y := 2 } stateD).cards
    ∧ (updateCardPosition "Q" { x := 1, y := 2 } stateD).history = stateD.history := by
  refine ⟨⟨by decide, by decide⟩, ?_, ?_⟩
  · exact (position_zindex_frame "Q" { x := 1, y := 2 } stateD).2.2.2.2.1 cardD
      (by decide) (by decide)
  · exact (position_zindex_frame "Q" { x := 1, y := 2 } stateD).1

end CatWords
